import Mathlib

/-!
Verification of the happytube staged pipeline core.

The Python sources are embedded shallowly: Python `str` values are modelled
as `List Char` (a Python string is a sequence of Unicode code points, exactly
as a `List Char` is), fallible operations return `Option` (with `none`
modelling a raised exception), and the external collaborators (PyYAML's
`dump`/`safe_load`, the Anthropic client, the filesystem) are passed in as
explicit parameters or oracles.
-/

/-- Python strings, modelled as lists of Unicode code points. -/
abbrev Str := List Char

/-- Finds the first occurrence of `sep` in a string and splits there:
the pair holds the text before the match and the text after it.
This models one step of Python `str.split(sep, maxsplit)`; `none` means
`sep` does not occur. -/
def splitFirst (sep : Str) : Str → Option (Str × Str)
  | [] => if sep.isPrefixOf ([] : Str) then some ([], []) else none
  | c :: rest =>
    if sep.isPrefixOf (c :: rest) then some ([], (c :: rest).drop sep.length)
    else
      match splitFirst sep rest with
      | some (a, b) => some (c :: a, b)
      | none => none

/-- Python `text.split(sep, 2)`: at most two splits, hence at most three
parts; the final part keeps any further occurrences of `sep`. -/
def pySplit2 (sep s : Str) : List Str :=
  match splitFirst sep s with
  | none => [s]
  | some (a, r) =>
    match splitFirst sep r with
    | none => [a, r]
    | some (b, r2) => [a, b, r2]

/-- Whitespace stripped by Python `str.strip()` (restricted to the ASCII
whitespace characters; the inputs in this development contain no other
Unicode whitespace). -/
def pyIsSpace (c : Char) : Bool :=
  c = ' ' || c = '\t' || c = '\n' || c = '\r' || c = '\x0b' || c = '\x0c'

/-- Python `str.strip()`: removes leading and trailing whitespace. -/
def pyStrip (s : Str) : Str :=
  ((s.dropWhile pyIsSpace).reverse.dropWhile pyIsSpace).reverse

/-- Whether `sep` occurs as a contiguous substring, models Python
`sep in s`. -/
def hasSubList (sep : Str) : Str → Bool
  | [] => sep.isPrefixOf ([] : Str)
  | c :: rest => sep.isPrefixOf (c :: rest) || hasSubList sep rest

/- ===== YAML frontmatter values ===== -/

/-- A YAML scalar value as it appears in a record header: a string, an
integer or a boolean.  This covers every header field the pipeline writes. -/
inductive YVal where
  | s (v : String)
  | i (v : Int)
  | b (v : Bool)
  deriving DecidableEq, Repr

/-- A parsed YAML frontmatter block: an insertion-ordered dictionary,
as Python dicts are. -/
abbrev Frontmatter := List (String × YVal)

/-- First-match association lookup, models Python `dict.__getitem__` /
`dict.get` on an insertion-ordered association list. -/
def assocFind {β : Type} (k : String) : List (String × β) → Option β
  | [] => none
  | (k2, v) :: rest => if k2 = k then some v else assocFind k rest

/-- Python `dict.update(patch)`: keys already present are overwritten in
place, new keys are appended in patch order. -/
def dictUpdate (base patch : Frontmatter) : Frontmatter :=
  base.map (fun kv =>
    match assocFind kv.1 patch with
    | some v => (kv.1, v)
    | none => kv)
  ++ patch.filter (fun kv => (assocFind kv.1 base).isNone)

/- ===== The record store: MarkdownFile (src/happytube/models/markdown.py) ===== -/

/-- A record: structured header plus free-text body, the unit flowing
through every stage.  `H` is the header representation; the concrete
pipeline uses `Frontmatter`. -/
structure MarkdownFile (H : Type) where
  frontmatter : H
  content : Str
  deriving DecidableEq

/-- The sentinel line delimiting the frontmatter block. -/
def fmSep : Str := ['-', '-', '-', '\n']

/-- `MarkdownFile.to_string`: serializes as
`f"---\n{yaml.dump(frontmatter)}---\n\n{content}"`.  The PyYAML dumper is
an external collaborator, passed in as `dump`. -/
def MarkdownFile.to_string {H : Type} (dump : H → Str) (m : MarkdownFile H) : Str :=
  fmSep ++ dump m.frontmatter ++ fmSep ++ '\n' :: m.content

/-- `MarkdownFile.load` on the text read from disk: if the text starts with
the sentinel it is split on the sentinel with maxsplit 2, the middle part is
fed to the YAML parser (`parse`, the `yaml.safe_load` collaborator) and the
final part is stripped to give the body; otherwise the header is empty and
the body is the whole text.  `none` models the `IndexError` Python raises
when a text starts with the sentinel but has no closing sentinel. -/
def MarkdownFile.load_string {H : Type} (parse : Str → H) (emptyH : H) (text : Str) :
    Option (MarkdownFile H) :=
  if fmSep.isPrefixOf text then
    match pySplit2 fmSep text with
    | [_, fmPart, contentPart] => some ⟨parse fmPart, pyStrip contentPart⟩
    | _ => none
  else some ⟨emptyH, text⟩

/-- `MarkdownFile.update_frontmatter(updates)`: `self.frontmatter.update(updates)`,
the body is untouched. -/
def MarkdownFile.update_frontmatter (m : MarkdownFile Frontmatter) (updates : Frontmatter) :
    MarkdownFile Frontmatter :=
  ⟨dictUpdate m.frontmatter updates, m.content⟩

/- ===== Dictionary lemmas ===== -/

theorem assocFind_append {β : Type} (k : String) (l1 l2 : List (String × β)) :
    assocFind k (l1 ++ l2) =
      match assocFind k l1 with
      | some v => some v
      | none => assocFind k l2 := by
  induction l1 with
  | nil => simp [assocFind]
  | cons hd tl ih =>
    obtain ⟨k2, v⟩ := hd
    by_cases h : k2 = k <;> simp [assocFind, h, ih]

theorem assocFind_dictUpdate_mapped (k : String) (b p : Frontmatter) :
    assocFind k (b.map (fun kv =>
      match assocFind kv.1 p with
      | some v => (kv.1, v)
      | none => kv)) =
      match assocFind k b with
      | some v =>
        match assocFind k p with
        | some w => some w
        | none => some v
      | none => none := by
  induction b with
  | nil => simp [assocFind]
  | cons hd tl ih =>
    obtain ⟨k2, v2⟩ := hd
    by_cases h : k2 = k
    · subst h
      cases hp : assocFind k2 p <;> simp [assocFind, hp]
    · cases hp : assocFind k2 p <;> simp [assocFind, h, hp, ih]

theorem assocFind_filter_of_notin (k : String) (p b : Frontmatter)
    (h : assocFind k b = none) :
    assocFind k (p.filter (fun kv => (assocFind kv.1 b).isNone)) = assocFind k p := by
  induction p with
  | nil => simp
  | cons hd tl ih =>
    obtain ⟨k2, v2⟩ := hd
    by_cases hk : k2 = k
    · subst hk
      simp [List.filter_cons, h, assocFind]
    · cases hb : assocFind k2 b <;> simp [List.filter_cons, hb, assocFind, hk, ih]

theorem assocFind_dictUpdate (k : String) (b p : Frontmatter) :
    assocFind k (dictUpdate b p) =
      match assocFind k p with
      | some v => some v
      | none => assocFind k b := by
  unfold dictUpdate
  rw [assocFind_append, assocFind_dictUpdate_mapped]
  cases hb : assocFind k b with
  | none =>
    rw [assocFind_filter_of_notin k p b hb]
    cases assocFind k p <;> simp
  | some v => cases assocFind k p <;> simp

/- ===== Lemmas about the sentinel split ===== -/

theorem hasSubList_of_isPrefixOf (sep u : Str) (h : sep.isPrefixOf u = true) :
    hasSubList sep u = true := by
  cases u <;> simp [hasSubList, h]

theorem splitFirst_fmSep_self (rest : Str) :
    splitFirst fmSep (fmSep ++ rest) = some ([], rest) := by
  have h : fmSep.isPrefixOf (fmSep ++ rest) = true :=
    List.isPrefixOf_iff_prefix.mpr (List.prefix_append _ _)
  show splitFirst fmSep ('-' :: ('-' :: '-' :: '\n' :: rest)) = some ([], rest)
  simp only [splitFirst]
  rw [show ('-' :: '-' :: '-' :: '\n' :: rest : Str) = fmSep ++ rest from rfl, h]
  simp [fmSep]

theorem splitFirst_fmSep_append (y rest : Str)
    (h : hasSubList fmSep (y ++ ['-', '-', '-']) = false) :
    splitFirst fmSep (y ++ (fmSep ++ rest)) = some (y, rest) := by
  induction y with
  | nil => simpa using splitFirst_fmSep_self rest
  | cons c y ih =>
    have hc : hasSubList fmSep (c :: (y ++ ['-', '-', '-'])) = false := by simpa using h
    have h' : hasSubList fmSep (y ++ ['-', '-', '-']) = false := by
      have := hc
      simp [hasSubList, Bool.or_eq_false_iff] at this
      exact this.2
    have hlen : fmSep.length ≤ (c :: (y ++ ['-', '-', '-'])).length := by
      simp [fmSep]
    have hassoc : c :: (y ++ (fmSep ++ rest)) = (c :: (y ++ ['-', '-', '-'])) ++ ('\n' :: rest) := by
      simp [fmSep]
    have hpre : fmSep.isPrefixOf (c :: (y ++ (fmSep ++ rest))) = false := by
      by_contra hcon
      rw [Bool.not_eq_false] at hcon
      have h1 : fmSep <+: (c :: (y ++ ['-', '-', '-'])) ++ ('\n' :: rest) := by
        rw [← hassoc]; exact List.isPrefixOf_iff_prefix.mp hcon
      have h2 : fmSep <+: c :: (y ++ ['-', '-', '-']) :=
        List.prefix_of_prefix_length_le h1 (List.prefix_append _ _) hlen
      have h3 := hasSubList_of_isPrefixOf fmSep (c :: (y ++ ['-', '-', '-']))
        (List.isPrefixOf_iff_prefix.mpr h2)
      rw [h3] at hc
      exact Bool.noConfusion hc
    show splitFirst fmSep (c :: (y ++ (fmSep ++ rest))) = some (c :: y, rest)
    simp only [splitFirst, hpre, Bool.false_eq_true, if_false, ih h']

theorem pyStrip_cons_newline (c : Str) : pyStrip ('\n' :: c) = pyStrip c := by
  have h : pyIsSpace '\n' = true := by decide
  simp [pyStrip, List.dropWhile_cons, h]

/-- C1 (amended): saving a record and loading the produced file reproduces the
header exactly — given that the YAML collaborator round-trips the header and
never emits the sentinel — and reproduces the body stripped of leading and
trailing whitespace (hence exactly, whenever the body is strip-invariant). -/
theorem markdown_load_save_roundtrip {H : Type} (dump : H → Str) (parse : Str → H)
    (emptyH : H) (m : MarkdownFile H)
    (hyaml : parse (dump m.frontmatter) = m.frontmatter)
    (hsep : hasSubList fmSep (dump m.frontmatter ++ ['-', '-', '-']) = false) :
    MarkdownFile.load_string parse emptyH (m.to_string dump) =
      some ⟨m.frontmatter, pyStrip m.content⟩ := by
  have h1 := splitFirst_fmSep_self (dump m.frontmatter ++ (fmSep ++ '\n' :: m.content))
  have h2 := splitFirst_fmSep_append (dump m.frontmatter) ('\n' :: m.content) hsep
  have hpre : fmSep.isPrefixOf
      (fmSep ++ (dump m.frontmatter ++ (fmSep ++ '\n' :: m.content))) = true :=
    List.isPrefixOf_iff_prefix.mpr (List.prefix_append _ _)
  unfold MarkdownFile.to_string MarkdownFile.load_string pySplit2
  simp only [List.append_assoc]
  simp [hpre, h1, h2, hyaml, pyStrip_cons_newline]

/-- A concrete YAML dumper for the counterexample: dumps the fixed header
used there to the text a YAML dumper would produce for it. -/
def yamlDumpX : Frontmatter → Str := fun _ => ['x', ':', ' ', '1', '\n']

/-- The matching concrete YAML parser: parses that text back. -/
def yamlParseX : Str → Frontmatter := fun _ => [("x", YVal.i 1)]

/-- A record whose body ends in a newline. -/
def mdX : MarkdownFile Frontmatter := ⟨[("x", YVal.i 1)], ['h', 'i', '\n']⟩

/-- C1 counterexample: the round-trip law `load(save(r)) == r` fails as
stated.  The YAML collaborator round-trips the header of `mdX` exactly and
its output never holds the sentinel, yet loading the saved file does not
reproduce `mdX`: the body `"hi\n"` comes back stripped to `"hi"`, because
`MarkdownFile.load` applies `.strip()` to the part after the closing
sentinel. -/
theorem markdown_roundtrip_counterexample :
    yamlParseX (yamlDumpX mdX.frontmatter) = mdX.frontmatter ∧
    hasSubList fmSep (yamlDumpX mdX.frontmatter ++ ['-', '-', '-']) = false ∧
    MarkdownFile.load_string yamlParseX ([] : Frontmatter)
      (MarkdownFile.to_string yamlDumpX mdX) ≠ some mdX := by
  refine ⟨rfl, by decide, ?_⟩
  decide

/-- C1 witness: the amended round trip evaluated on the concrete record. -/
theorem markdown_load_save_roundtrip_witness :
    MarkdownFile.load_string yamlParseX ([] : Frontmatter)
      (MarkdownFile.to_string yamlDumpX mdX) =
      some ⟨mdX.frontmatter, pyStrip mdX.content⟩ :=
  markdown_load_save_roundtrip yamlDumpX yamlParseX [] mdX (by decide) (by decide)

/-- C9: `update_frontmatter` merges the patch into the header by shallow
key-by-key overwrite — every key of the patch takes the patch's value, every
other key keeps its value — and never touches the body. -/
theorem update_frontmatter_frame (m : MarkdownFile Frontmatter) (patch : Frontmatter) :
    (m.update_frontmatter patch).content = m.content ∧
    ∀ k : String,
      assocFind k (m.update_frontmatter patch).frontmatter =
        match assocFind k patch with
        | some v => some v
        | none => assocFind k m.frontmatter :=
  ⟨rfl, fun k => assocFind_dictUpdate k m.frontmatter patch⟩

/- ===== Script detection (src/happytube/utils/__init__.py) ===== -/

/-- Python `html.unescape`, restricted to the five XML entities and the
numeric reference appearing in this repository's data and tests; on text
without an ampersand it is the identity, as the full table is. -/
def htmlUnescape : Str → Str
  | [] => []
  | '&' :: 'a' :: 'm' :: 'p' :: ';' :: rest => '&' :: htmlUnescape rest
  | '&' :: 'l' :: 't' :: ';' :: rest => '<' :: htmlUnescape rest
  | '&' :: 'g' :: 't' :: ';' :: rest => '>' :: htmlUnescape rest
  | '&' :: 'q' :: 'u' :: 'o' :: 't' :: ';' :: rest => '"' :: htmlUnescape rest
  | '&' :: 'a' :: 'p' :: 'o' :: 's' :: ';' :: rest => '\'' :: htmlUnescape rest
  | '&' :: '#' :: '3' :: '9' :: ';' :: rest => '\'' :: htmlUnescape rest
  | c :: rest => c :: htmlUnescape rest

/-- Python `str.isalpha`, restricted to the Unicode blocks relevant to the
pipeline's inputs: basic and Latin-1 letters, Cyrillic, Arabic, Hiragana,
Katakana, CJK unified ideographs and Hangul syllables.  Characters outside
these blocks are treated as non-alphabetic. -/
def pyIsAlpha (c : Char) : Bool :=
  let n := c.toNat
  decide ((0x41 ≤ n ∧ n ≤ 0x5A) ∨ (0x61 ≤ n ∧ n ≤ 0x7A) ∨
    (0xC0 ≤ n ∧ n ≤ 0xFF ∧ n ≠ 0xD7 ∧ n ≠ 0xF7) ∨
    (0x400 ≤ n ∧ n ≤ 0x4FF) ∨ (0x600 ≤ n ∧ n ≤ 0x6FF) ∨
    (0x3041 ≤ n ∧ n ≤ 0x3096) ∨ (0x30A1 ≤ n ∧ n ≤ 0x30FA) ∨
    (0x4E00 ≤ n ∧ n ≤ 0x9FFF) ∨ (0xAC00 ≤ n ∧ n ≤ 0xD7A3))

/-- The first word of `unicodedata.name(c)` for characters of the blocks
above: the writing-system name the Python code tallies. -/
def scriptName (c : Char) : String :=
  let n := c.toNat
  if n ≤ 0xFF then "LATIN"
  else if 0x400 ≤ n ∧ n ≤ 0x4FF then "CYRILLIC"
  else if 0x600 ≤ n ∧ n ≤ 0x6FF then "ARABIC"
  else if 0x3041 ≤ n ∧ n ≤ 0x3096 then "HIRAGANA"
  else if 0x30A1 ≤ n ∧ n ≤ 0x30FA then "KATAKANA"
  else if 0x4E00 ≤ n ∧ n ≤ 0x9FFF then "CJK"
  else if 0xAC00 ≤ n ∧ n ≤ 0xD7A3 then "HANGUL"
  else "UNKNOWN"

/-- One `Counter[script] += 1` step: increments the script's tally in place
or appends a fresh entry, preserving first-seen order as Python's `Counter`
(a dict) does. -/
def counterAdd (s : String) : List (String × Nat) → List (String × Nat)
  | [] => [(s, 1)]
  | (k, n) :: rest => if k = s then (k, n + 1) :: rest else (k, n) :: counterAdd s rest

/-- One loop iteration of `determine_text_script`: tally the character's
script if it is alphabetic. -/
def counterStep (acc : List (String × Nat)) (c : Char) : List (String × Nat) :=
  if pyIsAlpha c then counterAdd (scriptName c) acc else acc

/-- The `script_counter` built over a prefix. -/
def counterList (chars : Str) : List (String × Nat) :=
  chars.foldl counterStep []

/-- One comparison step in the search for the most common entry. -/
def mcStep (acc : Option (String × Nat)) (p : String × Nat) : Option (String × Nat) :=
  match acc with
  | none => some p
  | some q => if p.2 > q.2 then some p else some q

/-- `Counter.most_common(1)` reduced to its single element: the entry with
the greatest tally, earliest-seen entry winning ties (Python's sort is
stable and sorts a dict in insertion order). -/
def mostCommon1 (l : List (String × Nat)) : Option (String × Nat) :=
  l.foldl mcStep none

/-- `determine_text_script`: unescape, take the first 10 characters, tally
the script of each alphabetic character, and compare the top tally against
half the prefix length.  `none` models the `ZeroDivisionError` raised by
`num_occurrences / len(beginning)` when the prefix is empty.  The float test
`num / len < 0.5` is rendered as the integer test `2 * num < len`, which is
exactly equivalent for these magnitudes (`belowHalf_iff_rat` below). -/
def determine_text_script (text : String) : Option String :=
  let beginning := (htmlUnescape text.data).take 10
  let mc := mostCommon1 (counterList beginning)
  let num : Nat :=
    match mc with
    | some p => p.2
    | none => 0
  if beginning.length = 0 then none
  else if 2 * num < beginning.length then some "MIXED"
  else
    match mc with
    | some p => some p.1
    | none => none

/-- The integer rendering of `num / len < 0.5` agrees with the exact
rational comparison whenever the length is not zero (the zero case raises
in Python and is handled separately). -/
theorem belowHalf_iff_rat (a b : ℕ) (hb : b ≠ 0) :
    2 * a < b ↔ (a : ℚ) / (b : ℚ) < 1 / 2 := by
  have hb2 : (0 : ℚ) < (b : ℚ) := by exact_mod_cast Nat.pos_of_ne_zero hb
  rw [div_lt_div_iff₀ hb2 (by norm_num : (0 : ℚ) < 2), one_mul, mul_comm]
  exact_mod_cast Iff.rfl

/-- The multiset of script names of the alphabetic characters of a prefix:
the population the Python `Counter` counts. -/
def alphaScripts (l : Str) : List String := (l.filter pyIsAlpha).map scriptName

/-- The count of the most frequent writing system in a prefix, computed
directly from the population (the specification's reading). -/
def maxScriptCount (l : Str) : Nat :=
  ((alphaScripts l).map (fun nm => (alphaScripts l).count nm)).foldr max 0

/-- The tally a counter holds for a script name (0 when absent). -/
def countOf (nm : String) : List (String × Nat) → Nat
  | [] => 0
  | (k, n) :: rest => if k = nm then n else countOf nm rest

/- ===== Lemmas about the counter and the most-common entry ===== -/

set_option maxHeartbeats 1000000 in
theorem htmlUnescape_ne_nil (c : Char) (l : Str) : htmlUnescape (c :: l) ≠ [] := by
  unfold htmlUnescape
  split <;> simp_all

theorem counterFold_no_alpha (l : Str) (acc : List (String × Nat))
    (h : ∀ c ∈ l, pyIsAlpha c = false) : l.foldl counterStep acc = acc := by
  induction l generalizing acc with
  | nil => rfl
  | cons c t ih =>
    have hc := h c (by simp)
    simp only [List.foldl_cons, counterStep, hc, Bool.false_eq_true, if_false]
    exact ih acc (fun x hx => h x (by simp [hx]))

theorem countOf_counterAdd (nm s : String) (acc : List (String × Nat)) :
    countOf nm (counterAdd s acc) = countOf nm acc + (if s = nm then 1 else 0) := by
  induction acc with
  | nil =>
    by_cases h : s = nm <;> simp [counterAdd, countOf, h]
  | cons hd t ih =>
    obtain ⟨k, n⟩ := hd
    by_cases hks : k = s
    · subst hks
      by_cases hnm : k = nm
      · subst hnm
        simp [counterAdd, countOf]
      · simp [counterAdd, countOf, hnm]
    · by_cases hnm : k = nm
      · subst hnm
        simp [counterAdd, countOf, hks, Ne.symm hks]
      · simp [counterAdd, countOf, hks, hnm, ih]

theorem keys_counterAdd (s : String) (acc : List (String × Nat)) :
    (counterAdd s acc).map Prod.fst =
      if s ∈ acc.map Prod.fst then acc.map Prod.fst else acc.map Prod.fst ++ [s] := by
  induction acc with
  | nil => simp [counterAdd]
  | cons hd t ih =>
    obtain ⟨k, n⟩ := hd
    by_cases hks : k = s
    · subst hks
      simp [counterAdd]
    · by_cases hmem : s ∈ t.map Prod.fst
      · simp [counterAdd, hks, ih, hmem, Ne.symm hks]
      · simp [counterAdd, hks, ih, hmem, Ne.symm hks]

theorem mem_counterAdd (s : String) (p : String × Nat) :
    ∀ acc : List (String × Nat), p ∈ counterAdd s acc →
      p ∈ acc ∨ (∃ q, q ∈ acc ∧ p = (q.1, q.2 + 1)) ∨ p = (s, 1) := by
  intro acc
  induction acc with
  | nil =>
    intro h
    right; right
    simpa [counterAdd] using h
  | cons hd t ih =>
    obtain ⟨k, n⟩ := hd
    intro h
    by_cases hks : k = s
    · subst hks
      simp only [counterAdd, if_pos rfl] at h
      rcases List.mem_cons.mp h with h1 | h1
      · exact Or.inr (Or.inl ⟨(k, n), List.mem_cons_self _ _, h1⟩)
      · exact Or.inl (List.mem_cons_of_mem _ h1)
    · simp only [counterAdd, if_neg hks] at h
      rcases List.mem_cons.mp h with h1 | h1
      · exact Or.inl (by simp [h1])
      · rcases ih h1 with h2 | h2 | h2
        · exact Or.inl (List.mem_cons_of_mem _ h2)
        · obtain ⟨q, hq1, hq2⟩ := h2
          exact Or.inr (Or.inl ⟨q, List.mem_cons_of_mem _ hq1, hq2⟩)
        · exact Or.inr (Or.inr h2)

theorem alphaScripts_cons (c : Char) (t : Str) :
    alphaScripts (c :: t) =
      if pyIsAlpha c then scriptName c :: alphaScripts t else alphaScripts t := by
  by_cases h : pyIsAlpha c <;> simp [alphaScripts, List.filter_cons, h]

theorem counterFold_invariant (l : Str) :
    ∀ acc : List (String × Nat),
      (acc.map Prod.fst).Nodup → (∀ p ∈ acc, 1 ≤ p.2) →
      ((l.foldl counterStep acc).map Prod.fst).Nodup ∧
      (∀ nm, countOf nm (l.foldl counterStep acc) =
        countOf nm acc + (alphaScripts l).count nm) ∧
      (∀ p ∈ l.foldl counterStep acc, 1 ≤ p.2) := by
  induction l with
  | nil =>
    intro acc h1 h2
    exact ⟨h1, fun nm => by simp [alphaScripts], h2⟩
  | cons c t ih =>
    intro acc h1 h2
    by_cases hc : pyIsAlpha c
    · have h1' : ((counterAdd (scriptName c) acc).map Prod.fst).Nodup := by
        rw [keys_counterAdd]
        by_cases hmem : scriptName c ∈ acc.map Prod.fst
        · simpa [hmem] using h1
        · simp [hmem, List.nodup_append, h1]
      have h2' : ∀ p ∈ counterAdd (scriptName c) acc, 1 ≤ p.2 := by
        intro p hp
        rcases mem_counterAdd (scriptName c) p acc hp with h | ⟨q, _, hpq⟩ | hpq
        · exact h2 p h
        · simp [hpq]
        · simp [hpq]
      obtain ⟨ih1, ih2, ih3⟩ := ih (counterAdd (scriptName c) acc) h1' h2'
      refine ⟨?_, fun nm => ?_, ?_⟩
      · simpa [List.foldl_cons, counterStep, hc] using ih1
      · have heq : (c :: t).foldl counterStep acc =
            t.foldl counterStep (counterAdd (scriptName c) acc) := by
          simp [List.foldl_cons, counterStep, hc]
        rw [heq, ih2 nm, countOf_counterAdd, alphaScripts_cons]
        simp only [hc, if_true, List.count_cons, beq_iff_eq]
        by_cases hnm : scriptName c = nm
        · simp [hnm]
          omega
        · simp [hnm]
      · simpa [List.foldl_cons, counterStep, hc] using ih3
    · obtain ⟨ih1, ih2, ih3⟩ := ih acc h1 h2
      refine ⟨?_, fun nm => ?_, ?_⟩
      · simpa [List.foldl_cons, counterStep, hc] using ih1
      · have heq : (c :: t).foldl counterStep acc = t.foldl counterStep acc := by
          simp [List.foldl_cons, counterStep, hc]
        rw [heq, ih2 nm, alphaScripts_cons]
        simp [hc]
      · simpa [List.foldl_cons, counterStep, hc] using ih3

theorem counterList_nodup_keys (l : Str) : ((counterList l).map Prod.fst).Nodup :=
  (counterFold_invariant l [] (by simp) (by simp)).1

theorem countOf_counterList (l : Str) (nm : String) :
    countOf nm (counterList l) = (alphaScripts l).count nm := by
  have := (counterFold_invariant l [] (by simp) (by simp)).2.1 nm
  simpa [countOf] using this

theorem counterList_pos (l : Str) : ∀ p ∈ counterList l, 1 ≤ p.2 :=
  (counterFold_invariant l [] (by simp) (by simp)).2.2

theorem countOf_eq_of_mem_nodup (cl : List (String × Nat))
    (hn : (cl.map Prod.fst).Nodup) (p : String × Nat) (hp : p ∈ cl) :
    countOf p.1 cl = p.2 := by
  induction cl with
  | nil => cases hp
  | cons hd t ih =>
    obtain ⟨k, n⟩ := hd
    rw [List.map_cons] at hn
    obtain ⟨hnotin, hn'⟩ := List.nodup_cons.mp hn
    rcases List.mem_cons.mp hp with h | h
    · subst h
      simp [countOf]
    · have hne : k ≠ p.1 := by
        intro he
        apply hnotin
        rw [he]
        exact List.mem_map.mpr ⟨p, h, rfl⟩
      simp only [countOf, if_neg hne]
      exact ih hn' h

theorem countOf_pos_mem (nm : String) (cl : List (String × Nat))
    (h : 1 ≤ countOf nm cl) : (nm, countOf nm cl) ∈ cl := by
  induction cl with
  | nil => simp [countOf] at h
  | cons hd t ih =>
    obtain ⟨k, n⟩ := hd
    by_cases hk : k = nm
    · subst hk
      simp [countOf]
    · simp only [countOf, if_neg hk] at h ⊢
      exact List.mem_cons_of_mem _ (ih h)

theorem mcFold_spec (l : List (String × Nat)) :
    ∀ q : String × Nat, ∃ r, l.foldl mcStep (some q) = some r ∧
      (r = q ∨ r ∈ l) ∧ q.2 ≤ r.2 ∧ ∀ p ∈ l, p.2 ≤ r.2 := by
  induction l with
  | nil =>
    intro q
    exact ⟨q, rfl, Or.inl rfl, le_refl _, by simp⟩
  | cons p t ih =>
    intro q
    by_cases hgt : p.2 > q.2
    · obtain ⟨r, h1, h2, h3, h4⟩ := ih p
      refine ⟨r, by simpa [List.foldl_cons, mcStep, hgt] using h1, ?_, ?_, ?_⟩
      · rcases h2 with h | h
        · exact Or.inr (by simp [h])
        · exact Or.inr (List.mem_cons_of_mem _ h)
      · exact le_trans (le_of_lt hgt) h3
      · intro x hx
        rcases List.mem_cons.mp hx with h | h
        · rw [h]; exact h3
        · exact h4 x h
    · obtain ⟨r, h1, h2, h3, h4⟩ := ih q
      refine ⟨r, by simpa [List.foldl_cons, mcStep, hgt] using h1, ?_, h3, ?_⟩
      · rcases h2 with h | h
        · exact Or.inl h
        · exact Or.inr (List.mem_cons_of_mem _ h)
      · intro x hx
        rcases List.mem_cons.mp hx with h | h
        · rw [h]; exact le_trans (le_of_not_lt hgt) h3
        · exact h4 x h

theorem mostCommon1_spec (l : List (String × Nat)) (h : l ≠ []) :
    ∃ r, mostCommon1 l = some r ∧ r ∈ l ∧ ∀ p ∈ l, p.2 ≤ r.2 := by
  cases l with
  | nil => exact absurd rfl h
  | cons q t =>
    obtain ⟨r, h1, h2, h3, h4⟩ := mcFold_spec t q
    refine ⟨r, by simpa [mostCommon1, List.foldl_cons, mcStep] using h1, ?_, ?_⟩
    · rcases h2 with h | h
      · exact h ▸ List.mem_cons_self _ _
      · exact List.mem_cons_of_mem _ h
    · intro p hp
      rcases List.mem_cons.mp hp with h | h
      · rw [h]; exact h3
      · exact h4 p h

theorem le_foldr_max (L : List Nat) (x : Nat) (hx : x ∈ L) : x ≤ L.foldr max 0 := by
  induction L with
  | nil => cases hx
  | cons a t ih =>
    rcases List.mem_cons.mp hx with h | h
    · simp [h, le_max_left]
    · exact le_trans (ih h) (by simp)

theorem foldr_max_zero_or_mem (L : List Nat) : L.foldr max 0 = 0 ∨ L.foldr max 0 ∈ L := by
  induction L with
  | nil => left; rfl
  | cons a t ih =>
    rcases le_total a (t.foldr max 0) with h | h
    · rw [List.foldr_cons, max_eq_right h]
      rcases ih with h0 | hm
      · exact Or.inl h0
      · exact Or.inr (List.mem_cons_of_mem _ hm)
    · rw [List.foldr_cons, max_eq_left h]
      exact Or.inr (List.mem_cons_self _ _)

/-- The counter/most-common pair computed by the code agrees with the
specification-side tally: either the counter is empty and no script reaches
any count, or the most common entry's tally is exactly the maximal script
frequency of the prefix. -/
theorem mostCommon1_counterList (l : Str) :
    (mostCommon1 (counterList l) = none ∧ maxScriptCount l = 0) ∨
    (∃ r : String × Nat, mostCommon1 (counterList l) = some r ∧
      (alphaScripts l).count r.1 = r.2 ∧ r.2 = maxScriptCount l) := by
  by_cases hcl : counterList l = []
  · left
    refine ⟨by rw [hcl]; rfl, ?_⟩
    cases ha : alphaScripts l with
    | nil => simp [maxScriptCount, ha]
    | cons nm t =>
      exfalso
      have h1 := countOf_counterList l nm
      rw [hcl, ha] at h1
      simp [countOf, List.count_cons_self] at h1
  · right
    obtain ⟨r, h1, h2, h3⟩ := mostCommon1_spec (counterList l) hcl
    have hcount : countOf r.1 (counterList l) = r.2 :=
      countOf_eq_of_mem_nodup _ (counterList_nodup_keys l) r h2
    have hcnt : (alphaScripts l).count r.1 = r.2 := by
      rw [← countOf_counterList l r.1, hcount]
    have hpos : 1 ≤ r.2 := counterList_pos l r h2
    refine ⟨r, h1, hcnt, le_antisymm ?_ ?_⟩
    · have hmem : r.1 ∈ alphaScripts l :=
        List.count_pos_iff.mp (by rw [hcnt]; exact hpos)
      have hmm : (alphaScripts l).count r.1 ∈
          (alphaScripts l).map (fun nm => (alphaScripts l).count nm) :=
        List.mem_map_of_mem _ hmem
      calc r.2 = (alphaScripts l).count r.1 := hcnt.symm
        _ ≤ maxScriptCount l := le_foldr_max _ _ hmm
    · rcases foldr_max_zero_or_mem
          ((alphaScripts l).map fun nm => (alphaScripts l).count nm) with h0 | hm
      · rw [maxScriptCount, h0]
        exact Nat.zero_le _
      · rw [List.mem_map] at hm
        obtain ⟨nm, hnm, hcnt2⟩ := hm
        have hpos2 : 1 ≤ (alphaScripts l).count nm := List.count_pos_iff.mpr hnm
        have hmem2 : (nm, countOf nm (counterList l)) ∈ counterList l :=
          countOf_pos_mem nm _ (by rw [countOf_counterList]; exact hpos2)
        have hle := h3 _ hmem2
        calc maxScriptCount l = (alphaScripts l).count nm := by
              rw [maxScriptCount, ← hcnt2]
          _ = countOf nm (counterList l) := (countOf_counterList l nm).symm
          _ ≤ r.2 := by simpa using hle

theorem determine_text_script_unfold (s : String) :
    determine_text_script s =
      (if ((htmlUnescape s.data).take 10).length = 0 then none
       else if 2 * (match mostCommon1 (counterList ((htmlUnescape s.data).take 10)) with
           | some p => p.2
           | none => 0) < ((htmlUnescape s.data).take 10).length then some "MIXED"
       else
         match mostCommon1 (counterList ((htmlUnescape s.data).take 10)) with
         | some p => some p.1
         | none => none) := rfl

theorem htmlUnescape_data_ne_nil (s : String) (h1 : s.data ≠ []) :
    htmlUnescape s.data ≠ [] := by
  cases hd : s.data with
  | nil => exact absurd hd h1
  | cons c l => exact htmlUnescape_ne_nil c l

theorem prefixLen_ne_zero (s : String) (h1 : s.data ≠ []) :
    ((htmlUnescape s.data).take 10).length ≠ 0 := by
  cases hu : htmlUnescape s.data with
  | nil => exact absurd hu (htmlUnescape_data_ne_nil s h1)
  | cons c l => simp [hu]

/-- C2 (amended): on every nonempty input whose 10-character unescaped
prefix has no alphabetic character, `determine_text_script` returns
`"MIXED"`.  (The empty input instead raises `ZeroDivisionError`, see the
counterexample.) -/
theorem determine_text_script_no_alpha (s : String) (h1 : s.data ≠ [])
    (h2 : ∀ c ∈ (htmlUnescape s.data).take 10, pyIsAlpha c = false) :
    determine_text_script s = some "MIXED" := by
  have hlen := prefixLen_ne_zero s h1
  have hcl : counterList ((htmlUnescape s.data).take 10) = [] :=
    counterFold_no_alpha _ [] h2
  rw [determine_text_script_unfold, hcl]
  simp [mostCommon1, hlen, Nat.pos_of_ne_zero hlen, htmlUnescape_data_ne_nil s h1]

/-- C2 counterexample: on the empty string the claimed result `"MIXED"` is
not produced; `num_occurrences / len(beginning)` divides by zero and the
call raises (modelled by `none`). -/
theorem determine_text_script_empty_raises : determine_text_script "" = none := by
  decide

/-- C2 witness: a concrete all-punctuation input classifies as MIXED. -/
theorem determine_text_script_no_alpha_witness :
    determine_text_script "!!!" = some "MIXED" :=
  determine_text_script_no_alpha "!!!" (by decide) (by decide)

theorem determine_text_script_of_some (s : String) (r : String × Nat)
    (hmc : mostCommon1 (counterList ((htmlUnescape s.data).take 10)) = some r) :
    determine_text_script s =
      (if ((htmlUnescape s.data).take 10).length = 0 then none
       else if 2 * r.2 < ((htmlUnescape s.data).take 10).length then some "MIXED"
       else some r.1) := by
  rw [determine_text_script_unfold, hmc]

theorem determine_text_script_of_none (s : String)
    (hmc : mostCommon1 (counterList ((htmlUnescape s.data).take 10)) = none) :
    determine_text_script s =
      (if ((htmlUnescape s.data).take 10).length = 0 then none
       else if 2 * 0 < ((htmlUnescape s.data).take 10).length then some "MIXED"
       else none) := by
  rw [determine_text_script_unfold, hmc]

/-- The code never tallies the literal "MIXED" as a writing-system name:
`unicodedata.name` first words for the supported blocks are all distinct
from it, so the MIXED verdict can only come from the 50% rule. -/
theorem scriptName_ne_mixed (c : Char) : scriptName c ≠ "MIXED" := by
  unfold scriptName
  dsimp only
  split_ifs <;> decide

/-- C7 (amended): for every nonempty input, `determine_text_script` takes
the first 10 characters of the HTML-unescaped text, tallies the writing
system of each alphabetic character, and returns `"MIXED"` EXACTLY WHEN
the most frequent system's count is under 50% of the prefix's length;
otherwise it returns the name of a system attaining that maximal count —
hence THE most frequent system's name whenever that system is unique.  The
three concrete classifications hold.  (The empty input raises instead, see
the counterexample.) -/
theorem determine_text_script_majority :
    (∀ s : String, s.data ≠ [] →
      (determine_text_script s = some "MIXED" ↔
        2 * maxScriptCount ((htmlUnescape s.data).take 10) <
          ((htmlUnescape s.data).take 10).length) ∧
      (((htmlUnescape s.data).take 10).length ≤
          2 * maxScriptCount ((htmlUnescape s.data).take 10) →
        ∃ nm, determine_text_script s = some nm ∧
          (alphaScripts ((htmlUnescape s.data).take 10)).count nm =
            maxScriptCount ((htmlUnescape s.data).take 10)) ∧
      (∀ nm0 : String,
        (∀ nm' ∈ alphaScripts ((htmlUnescape s.data).take 10),
          (alphaScripts ((htmlUnescape s.data).take 10)).count nm' =
            maxScriptCount ((htmlUnescape s.data).take 10) → nm' = nm0) →
        ((htmlUnescape s.data).take 10).length ≤
          2 * maxScriptCount ((htmlUnescape s.data).take 10) →
        determine_text_script s = some nm0)) ∧
    determine_text_script "Hello, world!" = some "LATIN" ∧
    determine_text_script "你好" = some "CJK" ∧
    determine_text_script "안녕하세요 你好" = some "HANGUL" := by
  refine ⟨?_, by decide, by decide, by decide⟩
  intro s h1
  have hlen0 := prefixLen_ne_zero s h1
  have hpos : 0 < ((htmlUnescape s.data).take 10).length :=
    Nat.pos_of_ne_zero hlen0
  rcases mostCommon1_counterList ((htmlUnescape s.data).take 10) with
    ⟨hmc, hmax⟩ | ⟨r, hmc, hcnt, hmax⟩
  · have hdet : determine_text_script s = some "MIXED" := by
      rw [determine_text_script_of_none s hmc, if_neg hlen0,
        if_pos (by omega : 2 * 0 < ((htmlUnescape s.data).take 10).length)]
    refine ⟨⟨fun _ => by rw [hmax]; omega, fun _ => hdet⟩, ?_, ?_⟩
    · intro hge
      rw [hmax] at hge
      exact absurd (Nat.le_zero.mp (by simpa using hge)) hlen0
    · intro nm0 _ hge
      rw [hmax] at hge
      exact absurd (Nat.le_zero.mp (by simpa using hge)) hlen0
  · have hname_branch : ¬ (2 * r.2 < ((htmlUnescape s.data).take 10).length) →
        determine_text_script s = some r.1 := by
      intro hnlt
      rw [determine_text_script_of_some s r hmc, if_neg hlen0, if_neg hnlt]
    have hmem_of_ge : ((htmlUnescape s.data).take 10).length ≤ 2 * r.2 →
        r.1 ∈ alphaScripts ((htmlUnescape s.data).take 10) := by
      intro hge
      exact List.count_pos_iff.mp (by rw [hcnt]; omega)
    refine ⟨?_, ?_, ?_⟩
    · constructor
      · intro hmix
        by_cases hlt : 2 * r.2 < ((htmlUnescape s.data).take 10).length
        · rw [← hmax]
          exact hlt
        · exfalso
          have hdet := hname_branch hlt
          rw [hdet] at hmix
          have hr1 : r.1 = "MIXED" := Option.some.inj hmix
          have hmem := hmem_of_ge (by omega)
          unfold alphaScripts at hmem
          rw [List.mem_map] at hmem
          obtain ⟨c, _, hc⟩ := hmem
          exact scriptName_ne_mixed c (by rw [hc, hr1])
      · intro hlt
        rw [← hmax] at hlt
        rw [determine_text_script_of_some s r hmc, if_neg hlen0, if_pos hlt]
    · intro hge
      rw [← hmax] at hge
      exact ⟨r.1, hname_branch (by omega), by rw [hcnt, hmax]⟩
    · intro nm0 huniq hge
      rw [← hmax] at hge
      have heq : r.1 = nm0 := huniq r.1 (hmem_of_ge hge) (by rw [hcnt, hmax])
      rw [← heq]
      exact hname_branch (by omega)

/-- C7 counterexample: on the empty input the function produces no
classification at all (the division by the prefix length raises), although
the claim quantifies over every input string. -/
theorem determine_text_script_empty_no_output :
    (determine_text_script "").isSome = false := by decide

/-- C7 witness: the majority rule evaluated on a concrete Latin input. -/
theorem determine_text_script_majority_witness :
    ∃ nm, determine_text_script "ab" = some nm ∧
      (alphaScripts ((htmlUnescape "ab".data).take 10)).count nm =
        maxScriptCount ((htmlUnescape "ab".data).take 10) :=
  (determine_text_script_majority.1 "ab" (by decide)).2.1 (by decide)

/- ===== Assess stage (src/happytube/stages/assess.py) ===== -/

/-- A record with the concrete frontmatter dictionary. -/
abbrev Rec := MarkdownFile Frontmatter

/-- One row of the `csv.DictReader` over the collaborator's response text:
column name to cell text. -/
abbrev Row := List (String × String)

/-- The score and reasoning parsed from one response row. -/
structure Assessment where
  happiness_score : Int
  happiness_reasoning : String
  deriving DecidableEq, Repr

/-- The parsed response: `video_id -> assessment`, insertion-ordered. -/
abbrev AResults := List (String × Assessment)

/-- Python dict assignment `results[k] = v`: overwrites the value in place
when the key exists, appends otherwise. -/
def dictInsertA (k : String) (v : Assessment) : AResults → AResults
  | [] => [(k, v)]
  | (k2, v2) :: rest =>
    if k2 = k then (k2, v) :: rest else (k2, v2) :: dictInsertA k v rest

/-- The value of a nonempty all-digit string. -/
def digitsVal (ds : Str) : Option Nat :=
  if ds ≠ [] ∧ ds.all Char.isDigit then
    some (ds.foldl (fun a c => a * 10 + (c.toNat - 48)) 0)
  else none

/-- Python `int(s)`: strips whitespace, accepts an optional sign followed
by a nonempty digit string; `none` models the `ValueError` that the stage
turns into score 0. -/
def pyToInt (s : String) : Option Int :=
  match pyStrip s.data with
  | '-' :: ds => (digitsVal ds).map (fun n => -(n : Int))
  | '+' :: ds => (digitsVal ds).map (fun n => (n : Int))
  | ds => (digitsVal ds).map (fun n => (n : Int))

/-- `AssessStage._parse_claude_response` at the `DictReader` row level: the
id is `row.get("id", row.get("video_id", ""))`, the score is
`int(row.get("happiness", ""))` with unparsable values mapped to 0, the
reasoning is `row.get("reasoning", "")`; later rows overwrite earlier rows
with the same id. -/
def parseRowStep (results : AResults) (row : Row) : AResults :=
  let vid :=
    match assocFind "id" row with
    | some v => v
    | none => (assocFind "video_id" row).getD ""
  let happiness := (assocFind "happiness" row).getD ""
  let score := (pyToInt happiness).getD 0
  dictInsertA vid ⟨score, (assocFind "reasoning" row).getD ""⟩ results

def parseClaudeResponse (rows : List Row) : AResults :=
  rows.foldl parseRowStep []

/-- A frontmatter value rendered into an f-string, as in the output path
`f"video_{video_id}.md"`; the stage only ever writes string ids, but the
model is total. -/
def yvalFString (default : String) : Option YVal → Str
  | none => default.data
  | some (YVal.s v) => v.data
  | some (YVal.i n) => (toString n).data
  | some (YVal.b b) => (if b then "True" else "False").data

/-- The key under which `video.frontmatter.get("video_id", "")` is looked
up in the parsed response; only a string value (or the default `""`) can
match the response's string keys. -/
def vidKey (v : Rec) : Option String :=
  match assocFind "video_id" v.frontmatter with
  | some (YVal.s k) => some k
  | none => some ""
  | some _ => none

/-- `assessment_results.get(video_id, {})`. -/
def vidLookup (v : Rec) (results : AResults) : Option Assessment :=
  match vidKey v with
  | some k => assocFind k results
  | none => none

/-- The id naming the output file `video_{video_id}.md`. -/
def vidName (v : Rec) : Str :=
  yvalFString "" (assocFind "video_id" v.frontmatter)

/-- The header patch the assess loop merges into one record:
stage/assessed_at/score/reasoning/prompt identity; a record whose id is
absent from the parsed response gets score 0 and empty reasoning. -/
def mergeAssess (results : AResults) (now pname : String) (pver : Int)
    (v : Rec) : Rec :=
  let assessment := vidLookup v results
  v.update_frontmatter
    [("stage", YVal.s "assessed"),
     ("assessed_at", YVal.s now),
     ("happiness_score", YVal.i (match assessment with
        | some a => a.happiness_score
        | none => 0)),
     ("happiness_reasoning", YVal.s (match assessment with
        | some a => a.happiness_reasoning
        | none => "")),
     ("prompt_name", YVal.s pname),
     ("prompt_version", YVal.i pver)]

/-- The save loop of `AssessStage.run`: one record at a time, in loaded
order; a failing save (the `saveOk` oracle is false at that index) is
counted as an error and produces no file, any other record is written as
`video_{id}.md`. -/
def assessLoop (results : AResults) (now pname : String) (pver : Int)
    (saveOk : Nat → Bool) : List Rec → Nat → List (Str × Rec) × Nat × Nat
  | [], _ => ([], 0, 0)
  | v :: rest, i =>
    let v2 := mergeAssess results now pname pver v
    let out := assessLoop results now pname pver saveOk rest (i + 1)
    if saveOk i then ((vidName v, v2) :: out.1, out.2.1 + 1, out.2.2)
    else (out.1, out.2.1, out.2.2 + 1)

/-- The list comprehension
`[r["happiness_score"] for r in assessment_results.values() if r.get("happiness_score", 0) > 0]`. -/
def positiveScores (results : AResults) : List Int :=
  (results.map (fun p => p.2.happiness_score)).filter (fun n => 0 < n)

/-- Python `round(x)` to an integer: banker's rounding, exact over ℚ. -/
def roundHalfEven (x : ℚ) : Int :=
  let f := ⌊x⌋
  let r := x - f
  if r < 1 / 2 then f
  else if 1 / 2 < r then f + 1
  else if f % 2 = 0 then f else f + 1

/-- Python `round(x, 2)`. -/
def round2 (x : ℚ) : ℚ := (roundHalfEven (x * 100) : ℚ) / 100

/-- `sum(scores) / len(scores) if scores else 0`. -/
def ratMean (l : List Int) : ℚ :=
  if l = [] then 0 else (l.sum : ℚ) / (l.length : ℚ)

/-- The result dictionary of `AssessStage.run` (the fields the claims are
about).  The empty-input early return carries no average field. -/
structure AssessOut where
  saved : List (Str × Rec)
  assessed_videos : Nat
  errors : Nat
  avg_happiness : Option ℚ
  deriving DecidableEq

/-- The pure core of `AssessStage.run` after the collaborator call: given
the loaded records, the `DictReader` rows of the response text, the
timestamp, the prompt identity and the save oracle, produce the sequence of
writes, the counters and the rounded average of the positive parsed
scores. -/
def assessRun (videos : List Rec) (rows : List Row) (now pname : String)
    (pver : Int) (saveOk : Nat → Bool) : AssessOut :=
  if videos.isEmpty then ⟨[], 0, 0, none⟩
  else
    let results := parseClaudeResponse rows
    let out := assessLoop results now pname pver saveOk videos 0
    ⟨out.1, out.2.1, out.2.2, some (round2 (ratMean (positiveScores results)))⟩

theorem mergeAssess_fields (results : AResults) (now pname : String)
    (pver : Int) (v : Rec) :
    assocFind "stage" (mergeAssess results now pname pver v).frontmatter =
        some (YVal.s "assessed") ∧
    assocFind "assessed_at" (mergeAssess results now pname pver v).frontmatter =
        some (YVal.s now) ∧
    assocFind "prompt_name" (mergeAssess results now pname pver v).frontmatter =
        some (YVal.s pname) ∧
    assocFind "prompt_version" (mergeAssess results now pname pver v).frontmatter =
        some (YVal.i pver) ∧
    assocFind "happiness_score" (mergeAssess results now pname pver v).frontmatter =
        some (YVal.i (match vidLookup v results with
          | some a => a.happiness_score
          | none => 0)) ∧
    assocFind "happiness_reasoning" (mergeAssess results now pname pver v).frontmatter =
        some (YVal.s (match vidLookup v results with
          | some a => a.happiness_reasoning
          | none => "")) := by
  unfold mergeAssess MarkdownFile.update_frontmatter
  refine ⟨?_, ?_, ?_, ?_, ?_, ?_⟩ <;> simp [assocFind_dictUpdate, assocFind]

theorem length_filter_not_add {α : Type} (p : α → Bool) (l : List α) :
    (l.filter p).length + (l.filter (fun a => !p a)).length = l.length := by
  induction l with
  | nil => rfl
  | cons a t ih =>
    by_cases h : p a
    · simp [List.filter_cons, h]
      omega
    · simp [List.filter_cons, h]
      omega

theorem assessLoop_spec (results : AResults) (now pname : String) (pver : Int)
    (saveOk : Nat → Bool) :
    ∀ (l : List Rec) (i : Nat),
      assessLoop results now pname pver saveOk l i =
        ((List.enumFrom i l).filterMap (fun p =>
          if saveOk p.1 then
            some (vidName p.2, mergeAssess results now pname pver p.2)
          else none),
         ((List.enumFrom i l).filter (fun p => saveOk p.1)).length,
         ((List.enumFrom i l).filter (fun p => !saveOk p.1)).length) := by
  intro l
  induction l with
  | nil => intro i; simp [assessLoop]
  | cons v rest ih =>
    intro i
    simp only [assessLoop, List.enumFrom_cons, List.filterMap_cons, List.filter_cons,
      ih (i + 1)]
    by_cases h : saveOk i <;> simp [h]

theorem filterMap_enumFrom_of_all {α β : Type} (saveOk : Nat → Bool)
    (hall : ∀ i, saveOk i = true) (g : α → β) :
    ∀ (l : List α) (i : Nat),
      (List.enumFrom i l).filterMap
        (fun p => if saveOk p.1 then some (g p.2) else none) = l.map g := by
  intro l
  induction l with
  | nil => intro i; simp
  | cons a t ih =>
    intro i
    simp [List.enumFrom_cons, List.filterMap_cons, hall i, ih]

/-- C3: given a non-empty loaded set, the assess loop attempts exactly one
write per loaded record, in order; a record is dropped only when its own
save fails, and that failure is counted as an error (so processed + errors
covers every loaded record, and with no save failures every record is
written).  Every written record carries stage "assessed", the timestamp and
the prompt identity, and a record whose id is absent from the parsed
response is merged with score 0 and empty reasoning rather than dropped. -/
theorem assess_stage_completeness (videos : List Rec) (rows : List Row)
    (now pname : String) (pver : Int) (saveOk : Nat → Bool)
    (hne : videos ≠ []) :
    (assessRun videos rows now pname pver saveOk).saved =
      (List.enumFrom 0 videos).filterMap (fun p =>
        if saveOk p.1 then
          some (vidName p.2,
            mergeAssess (parseClaudeResponse rows) now pname pver p.2)
        else none) ∧
    (assessRun videos rows now pname pver saveOk).assessed_videos +
        (assessRun videos rows now pname pver saveOk).errors = videos.length ∧
    ((∀ i, saveOk i = true) →
      (assessRun videos rows now pname pver saveOk).saved =
        videos.map (fun v =>
          (vidName v, mergeAssess (parseClaudeResponse rows) now pname pver v)) ∧
      (assessRun videos rows now pname pver saveOk).assessed_videos = videos.length ∧
      (assessRun videos rows now pname pver saveOk).errors = 0) ∧
    (∀ pr ∈ (assessRun videos rows now pname pver saveOk).saved,
      assocFind "stage" pr.2.frontmatter = some (YVal.s "assessed") ∧
      assocFind "assessed_at" pr.2.frontmatter = some (YVal.s now) ∧
      assocFind "prompt_name" pr.2.frontmatter = some (YVal.s pname) ∧
      assocFind "prompt_version" pr.2.frontmatter = some (YVal.i pver)) ∧
    (∀ v : Rec, vidLookup v (parseClaudeResponse rows) = none →
      assocFind "happiness_score"
          (mergeAssess (parseClaudeResponse rows) now pname pver v).frontmatter =
        some (YVal.i 0) ∧
      assocFind "happiness_reasoning"
          (mergeAssess (parseClaudeResponse rows) now pname pver v).frontmatter =
        some (YVal.s "")) := by
  have hv : videos.isEmpty = false := by
    cases videos with
    | nil => exact absurd rfl hne
    | cons a t => rfl
  have hrun : assessRun videos rows now pname pver saveOk =
      ⟨(assessLoop (parseClaudeResponse rows) now pname pver saveOk videos 0).1,
       (assessLoop (parseClaudeResponse rows) now pname pver saveOk videos 0).2.1,
       (assessLoop (parseClaudeResponse rows) now pname pver saveOk videos 0).2.2,
       some (round2 (ratMean (positiveScores (parseClaudeResponse rows))))⟩ := by
    rw [assessRun, hv]
    rfl
  have hloop := assessLoop_spec (parseClaudeResponse rows) now pname pver saveOk videos 0
  refine ⟨?_, ?_, ?_, ?_, ?_⟩
  · rw [hrun]
    rw [hloop]
  · rw [hrun]
    show (assessLoop (parseClaudeResponse rows) now pname pver saveOk videos 0).2.1 +
        (assessLoop (parseClaudeResponse rows) now pname pver saveOk videos 0).2.2 =
        videos.length
    rw [hloop]
    show ((List.enumFrom 0 videos).filter (fun p => saveOk p.1)).length +
        ((List.enumFrom 0 videos).filter (fun p => !saveOk p.1)).length = videos.length
    rw [length_filter_not_add]
    simp
  · intro hall
    refine ⟨?_, ?_, ?_⟩
    · rw [hrun]
      show (assessLoop (parseClaudeResponse rows) now pname pver saveOk videos 0).1 = _
      rw [hloop]
      exact filterMap_enumFrom_of_all saveOk hall
        (fun v => (vidName v, mergeAssess (parseClaudeResponse rows) now pname pver v))
        videos 0
    · rw [hrun]
      show ((assessLoop (parseClaudeResponse rows) now pname pver saveOk videos 0)).2.1 = _
      rw [hloop]
      show ((List.enumFrom 0 videos).filter (fun p => saveOk p.1)).length = videos.length
      rw [List.filter_eq_self.mpr (fun p _ => hall p.1)]
      simp
    · rw [hrun]
      show ((assessLoop (parseClaudeResponse rows) now pname pver saveOk videos 0)).2.2 = _
      rw [hloop]
      show ((List.enumFrom 0 videos).filter (fun p => !saveOk p.1)).length = 0
      simp [List.filter_eq_nil_iff, hall]
  · intro pr hpr
    rw [hrun] at hpr
    replace hpr : pr ∈ (assessLoop (parseClaudeResponse rows) now pname pver saveOk videos 0).1 := hpr
    rw [hloop] at hpr
    obtain ⟨p, _, hp2⟩ := List.mem_filterMap.mp hpr
    by_cases h : saveOk p.1
    · rw [if_pos h] at hp2
      obtain ⟨hfst, hsnd⟩ := Prod.mk.injEq .. ▸ Option.some.injEq .. ▸ hp2
      have hm := mergeAssess_fields (parseClaudeResponse rows) now pname pver p.2
      rw [hsnd] at hm
      exact ⟨hm.1, hm.2.1, hm.2.2.1, hm.2.2.2.1⟩
    · rw [if_neg h] at hp2
      cases hp2
  · intro v hv0
    have hm := mergeAssess_fields (parseClaudeResponse rows) now pname pver v
    rw [hv0] at hm
    exact ⟨hm.2.2.2.2.1, hm.2.2.2.2.2⟩

/-- A concrete record for the witnesses below. -/
def recA : Rec := ⟨[("video_id", YVal.s "a"), ("title", YVal.s "A")], "body".data⟩

/-- C3 witness: the completeness statement evaluated on one record with no
save failures. -/
theorem assess_stage_completeness_witness :
    (assessRun [recA] [] "t" "p" 2 (fun _ => true)).assessed_videos +
      (assessRun [recA] [] "t" "p" 2 (fun _ => true)).errors = 1 :=
  (assess_stage_completeness [recA] [] "t" "p" 2 (fun _ => true)
    (by simp)).2.1

/- ===== The assess average: parsed-response scores versus loaded records ===== -/

/-- The score a loaded record ends up with after the merge. -/
def mergedScore (results : AResults) (v : Rec) : Int :=
  match vidLookup v results with
  | some a => a.happiness_score
  | none => 0

/-- Removes every entry with the given key. -/
def eraseKey (k : String) (l : AResults) : AResults :=
  l.filter (fun p => p.1 != k)

theorem assocFind_eq_none_iff {β : Type} (k : String) (l : List (String × β)) :
    assocFind k l = none ↔ k ∉ l.map Prod.fst := by
  induction l with
  | nil => simp [assocFind]
  | cons hd t ih =>
    obtain ⟨k2, v⟩ := hd
    by_cases h : k2 = k
    · subst h
      simp [assocFind]
    · simp [assocFind, h, ih, Ne.symm h]

theorem assocFind_eraseKey_ne (k k' : String) (l : AResults) (h : k' ≠ k) :
    assocFind k' (eraseKey k l) = assocFind k' l := by
  induction l with
  | nil => rfl
  | cons hd t ih =>
    obtain ⟨k2, v⟩ := hd
    by_cases h2 : k2 = k
    · subst h2
      have he : eraseKey k2 ((k2, v) :: t) = eraseKey k2 t := by
        simp [eraseKey, List.filter_cons]
      rw [he, ih]
      simp only [assocFind, if_neg (Ne.symm h)]
    · have he : eraseKey k ((k2, v) :: t) = (k2, v) :: eraseKey k t := by
        simp [eraseKey, List.filter_cons, bne_iff_ne, h2]
      rw [he]
      by_cases h3 : k2 = k'
      · simp only [assocFind, if_pos h3]
      · simp only [assocFind, if_neg h3, ih]

theorem perm_eraseKey (k : String) (a : Assessment) (l : AResults)
    (hn : (l.map Prod.fst).Nodup) (hf : assocFind k l = some a) :
    l.Perm ((k, a) :: eraseKey k l) := by
  induction l with
  | nil => simp [assocFind] at hf
  | cons hd t ih =>
    obtain ⟨k2, v⟩ := hd
    rw [List.map_cons] at hn
    obtain ⟨hnotin, hn'⟩ := List.nodup_cons.mp hn
    by_cases h2 : k2 = k
    · subst h2
      obtain rfl : v = a := by simpa [assocFind] using hf
      have ht : eraseKey k2 t = t := by
        rw [eraseKey, List.filter_eq_self]
        intro p hp
        simp only [bne_iff_ne, ne_eq, decide_eq_true_eq]
        intro he
        exact hnotin (he ▸ List.mem_map.mpr ⟨p, hp, rfl⟩)
      have he : eraseKey k2 ((k2, v) :: t) = t := by
        simp [eraseKey, List.filter_cons] at ht ⊢
        exact ht
      rw [he]
    · have hf' : assocFind k t = some a := by simpa [assocFind, h2] using hf
      have hperm := ih hn' hf'
      have he : eraseKey k ((k2, v) :: t) = (k2, v) :: eraseKey k t := by
        simp [eraseKey, List.filter_cons, bne_iff_ne, h2]
      rw [he]
      exact (hperm.cons (k2, v)).trans (List.Perm.swap _ _ _)

theorem keys_eraseKey_sublist (k : String) (l : AResults) :
    ((eraseKey k l).map Prod.fst).Sublist (l.map Prod.fst) :=
  List.Sublist.map _ (List.filter_sublist l)

theorem mem_keys_eraseKey (k k' : String) (l : AResults)
    (h : k' ∈ (eraseKey k l).map Prod.fst) : k' ∈ l.map Prod.fst ∧ k' ≠ k := by
  rw [List.mem_map] at h
  obtain ⟨p, hp, rfl⟩ := h
  have hp2 := List.mem_filter.mp hp
  exact ⟨List.mem_map.mpr ⟨p, hp2.1, rfl⟩, by simpa [bne_iff_ne] using hp2.2⟩

theorem keys_dictInsertA (k : String) (v : Assessment) (l : AResults) :
    (dictInsertA k v l).map Prod.fst =
      if k ∈ l.map Prod.fst then l.map Prod.fst else l.map Prod.fst ++ [k] := by
  induction l with
  | nil => simp [dictInsertA]
  | cons hd t ih =>
    obtain ⟨k2, v2⟩ := hd
    by_cases hks : k2 = k
    · subst hks
      simp [dictInsertA]
    · by_cases hmem : k ∈ t.map Prod.fst
      · simp [dictInsertA, hks, ih, hmem, Ne.symm hks]
      · simp [dictInsertA, hks, ih, hmem, Ne.symm hks]

theorem nodup_dictInsertA (k : String) (v : Assessment) (l : AResults)
    (h : (l.map Prod.fst).Nodup) : ((dictInsertA k v l).map Prod.fst).Nodup := by
  rw [keys_dictInsertA]
  by_cases hmem : k ∈ l.map Prod.fst
  · simpa [hmem] using h
  · simp [hmem, List.nodup_append, h]

theorem parseFold_nodup_keys :
    ∀ (rows : List Row) (acc : AResults), (acc.map Prod.fst).Nodup →
      ((rows.foldl parseRowStep acc).map Prod.fst).Nodup := by
  intro rows
  induction rows with
  | nil => intro acc h; exact h
  | cons row rest ih =>
    intro acc h
    rw [List.foldl_cons]
    exact ih _ (nodup_dictInsertA _ _ _ h)

theorem parseClaudeResponse_nodup_keys (rows : List Row) :
    ((parseClaudeResponse rows).map Prod.fst).Nodup :=
  parseFold_nodup_keys rows [] (by simp)

/-- The multiset of positive merged scores over the loaded records equals
the multiset of positive parsed scores, whenever the loaded records carry
distinct ids and every parsed id belongs to some loaded record. -/
theorem mergedScores_perm :
    ∀ (videos : List Rec) (results : AResults),
      (results.map Prod.fst).Nodup →
      (videos.filterMap vidKey).Nodup →
      (∀ k ∈ results.map Prod.fst, k ∈ videos.filterMap vidKey) →
      ((videos.map (mergedScore results)).filter (fun n => 0 < n)).Perm
        ((results.map (fun p => p.2.happiness_score)).filter (fun n => 0 < n)) := by
  intro videos
  induction videos with
  | nil =>
    intro results _ _ hsub
    cases results with
    | nil => exact List.Perm.refl _
    | cons p t => exact absurd (hsub p.1 (by simp)) (by simp)
  | cons v rest ih =>
    intro results hr hk hsub
    cases hvk : vidKey v with
    | none =>
      have hms : mergedScore results v = 0 := by simp [mergedScore, vidLookup, hvk]
      have hfm : (v :: rest).filterMap vidKey = rest.filterMap vidKey := by
        simp [List.filterMap_cons, hvk]
      rw [hfm] at hk
      have hsub' : ∀ k ∈ results.map Prod.fst, k ∈ rest.filterMap vidKey := by
        intro k hk2
        have := hsub k hk2
        rwa [hfm] at this
      rw [List.map_cons, hms, List.filter_cons,
        if_neg (by decide : ¬(decide ((0 : Int) < 0) = true))]
      exact ih results hr hk hsub'
    | some k =>
      have hfm : (v :: rest).filterMap vidKey = k :: rest.filterMap vidKey := by
        simp [List.filterMap_cons, hvk]
      rw [hfm] at hk
      obtain ⟨hknotin, hk'⟩ := List.nodup_cons.mp hk
      cases hfind : assocFind k results with
      | none =>
        have hms : mergedScore results v = 0 := by
          simp [mergedScore, vidLookup, hvk, hfind]
        have hsub' : ∀ k' ∈ results.map Prod.fst, k' ∈ rest.filterMap vidKey := by
          intro k' hk2
          have hin := hsub k' hk2
          rw [hfm] at hin
          rcases List.mem_cons.mp hin with he | he
          · subst he
            exact absurd hk2 ((assocFind_eq_none_iff k' results).mp hfind)
          · exact he
        rw [List.map_cons, hms, List.filter_cons,
          if_neg (by decide : ¬(decide ((0 : Int) < 0) = true))]
        exact ih results hr hk' hsub'
      | some a =>
        have hperm := perm_eraseKey k a results hr hfind
        have hms : mergedScore results v = a.happiness_score := by
          simp [mergedScore, vidLookup, hvk, hfind]
        have hmapeq : rest.map (mergedScore results) =
            rest.map (mergedScore (eraseKey k results)) := by
          apply List.map_congr_left
          intro w hw
          cases hw2 : vidKey w with
          | none => simp [mergedScore, vidLookup, hw2]
          | some k2 =>
            have hk2mem : k2 ∈ rest.filterMap vidKey :=
              List.mem_filterMap.mpr ⟨w, hw, hw2⟩
            have hne : k2 ≠ k := fun he => hknotin (he ▸ hk2mem)
            simp [mergedScore, vidLookup, hw2, assocFind_eraseKey_ne k k2 results hne]
        have hr' : ((eraseKey k results).map Prod.fst).Nodup :=
          List.Nodup.sublist (keys_eraseKey_sublist k results) hr
        have hsub' : ∀ k' ∈ (eraseKey k results).map Prod.fst,
            k' ∈ rest.filterMap vidKey := by
          intro k' hk2
          obtain ⟨hmem, hne⟩ := mem_keys_eraseKey k k' results hk2
          have hin := hsub k' hmem
          rw [hfm] at hin
          rcases List.mem_cons.mp hin with he | he
          · exact absurd he hne
          · exact he
        have hih := ih (eraseKey k results) hr' hk' hsub'
        have hpermR :
            ((results.map (fun p => p.2.happiness_score)).filter (fun n => 0 < n)).Perm
              ((a.happiness_score ::
                (eraseKey k results).map (fun p => p.2.happiness_score)).filter
                (fun n => 0 < n)) :=
          List.Perm.filter _ (List.Perm.map _ hperm)
        rw [List.map_cons, hms, hmapeq]
        refine List.Perm.trans ?_ hpermR.symm
        rw [List.filter_cons, List.filter_cons]
        by_cases hpos : 0 < a.happiness_score
        · rw [if_pos (by simpa using hpos), if_pos (by simpa using hpos)]
          exact hih.cons _
        · rw [if_neg (by simpa using hpos), if_neg (by simpa using hpos)]
          exact hih

theorem ratMean_perm (l1 l2 : List Int) (h : l1.Perm l2) : ratMean l1 = ratMean l2 := by
  cases l1 with
  | nil => rw [List.Perm.eq_nil h.symm]
  | cons a t =>
    have h2 : l2 ≠ [] := by
      intro he
      rw [he] at h
      exact absurd (List.Perm.eq_nil h) (by simp)
    unfold ratMean
    rw [h.sum_eq, h.length_eq, if_neg (by simp : (a :: t : List Int) ≠ []), if_neg h2]

/-- C4 (amended): the returned average happiness is the mean of the
strictly positive scores of the PARSED COLLABORATOR RESPONSE, rounded to 2
decimals (0 when none is positive).  This coincides with the mean over the
loaded records' merged scores exactly when the loaded ids are distinct and
every parsed id matches a loaded record — without that condition the two
disagree (see the counterexample). -/
theorem assess_stage_mean (videos : List Rec) (rows : List Row)
    (now pname : String) (pver : Int) (saveOk : Nat → Bool)
    (hne : videos ≠ [])
    (hkeys : (videos.filterMap vidKey).Nodup)
    (hsub : ∀ k ∈ (parseClaudeResponse rows).map Prod.fst,
      k ∈ videos.filterMap vidKey) :
    (assessRun videos rows now pname pver saveOk).avg_happiness =
      some (round2 (ratMean (positiveScores (parseClaudeResponse rows)))) ∧
    (assessRun videos rows now pname pver saveOk).avg_happiness =
      some (round2 (ratMean
        ((videos.map (mergedScore (parseClaudeResponse rows))).filter
          (fun n => 0 < n)))) ∧
    (positiveScores (parseClaudeResponse rows) = [] →
      (assessRun videos rows now pname pver saveOk).avg_happiness = some 0) := by
  have hv : videos.isEmpty = false := by
    cases videos with
    | nil => exact absurd rfl hne
    | cons a t => rfl
  have havg : (assessRun videos rows now pname pver saveOk).avg_happiness =
      some (round2 (ratMean (positiveScores (parseClaudeResponse rows)))) := by
    rw [assessRun, hv]
    rfl
  refine ⟨havg, ?_, ?_⟩
  · have hperm := mergedScores_perm videos (parseClaudeResponse rows)
      (parseClaudeResponse_nodup_keys rows) hkeys hsub
    have heq : ratMean (positiveScores (parseClaudeResponse rows)) =
        ratMean ((videos.map (mergedScore (parseClaudeResponse rows))).filter
          (fun n => 0 < n)) := by
      unfold positiveScores
      exact ratMean_perm _ _ hperm.symm
    rw [havg, heq]
  · intro hnilp
    rw [havg, hnilp]
    have : ratMean [] = 0 := rfl
    rw [this]
    show some (round2 0) = some 0
    norm_num [round2, roundHalfEven]

/-- C4 counterexample: the response holds an id ("b") matching no loaded
record; the single loaded record's merged score is 0, so the claim as
stated demands an average of 0, yet the code averages over the parsed
response and returns 5. -/
theorem assess_stage_mean_counterexample :
    (assessRun [recA] [[("id", "b"), ("happiness", "5"), ("reasoning", "r")]]
        "t" "p" 2 (fun _ => true)).avg_happiness = some 5 ∧
    ([recA].map (mergedScore (parseClaudeResponse
        [[("id", "b"), ("happiness", "5"), ("reasoning", "r")]]))).filter
      (fun n => 0 < n) = [] := by
  constructor
  · have h1 : positiveScores (parseClaudeResponse
        [[("id", "b"), ("happiness", "5"), ("reasoning", "r")]]) = [5] := by decide
    have h2 : (assessRun [recA] [[("id", "b"), ("happiness", "5"), ("reasoning", "r")]]
        "t" "p" 2 (fun _ => true)).avg_happiness =
        some (round2 (ratMean (positiveScores (parseClaudeResponse
          [[("id", "b"), ("happiness", "5"), ("reasoning", "r")]])))) := rfl
    rw [h2, h1]
    have h3 : ratMean [5] = 5 := by norm_num [ratMean]
    rw [h3]
    norm_num [round2, roundHalfEven]
  · decide

/-- C4 witness: with a response whose single id matches the single loaded
record, the average over the loaded records' positive merged scores is
returned. -/
theorem assess_stage_mean_witness :
    (assessRun [recA] [[("id", "a"), ("happiness", "4"), ("reasoning", "r")]]
        "t" "p" 2 (fun _ => true)).avg_happiness =
      some (round2 (ratMean
        (([recA].map (mergedScore (parseClaudeResponse
          [[("id", "a"), ("happiness", "4"), ("reasoning", "r")]]))).filter
          (fun n => 0 < n)))) :=
  (assess_stage_mean [recA] [[("id", "a"), ("happiness", "4"), ("reasoning", "r")]]
    "t" "p" 2 (fun _ => true) (by simp) (by decide) (by decide)).2.1

/- ===== Enhance stage (src/happytube/stages/enhance.py) ===== -/

/-- `fm.get("happiness_score", 0)` as used in the threshold comparison:
a missing key is 0, an integer is itself, a boolean compares as its Python
integer value, and a string makes `>=` raise `TypeError` (`none`), upon
which the surrounding `except` logs and skips the record. -/
def scoreVal (v : Rec) : Option Int :=
  match assocFind "happiness_score" v.frontmatter with
  | none => some 0
  | some (YVal.i n) => some n
  | some (YVal.b b) => some (if b then 1 else 0)
  | some (YVal.s _) => none

/-- `EnhanceStage._load_videos_from_assess` on the loadable records of the
assess partition, in filename order: keeps exactly those passing
`happiness_score >= threshold`. -/
def loadVideosFromAssess (threshold : Int) (recs : List Rec) : List Rec :=
  recs.filter (fun v =>
    match scoreVal v with
    | some n => decide (threshold ≤ n)
    | none => false)

/-- `_enhance_description_simple`: a successful collaborator call returns
the stripped response text; a raising call (`none`) returns the original
description unchanged. -/
def enhanceDescription (collabResult : Option Str) (description : Str) : Str :=
  match collabResult with
  | some t => pyStrip t
  | none => description

/-- The description extracted from a record's body:
`content.split("\n\n", 1)[1] if "\n\n" in content else ""`. -/
def descOf (v : Rec) : Str :=
  match splitFirst ['\n', '\n'] v.content with
  | some p => p.2
  | none => []

/-- The record written by the enhance loop for one retained record: stage,
timestamp and the (possibly fallen-back) enhanced description merged into
the header, and the body replaced by `f"# {title}\n\n{enhanced}"`. -/
def enhRecord (collabResult : Option Str) (now : String) (v : Rec) : Rec :=
  let title := yvalFString "" (assocFind "title" v.frontmatter)
  let enhanced := enhanceDescription collabResult (descOf v)
  let v2 := v.update_frontmatter
    [("stage", YVal.s "enhanced"),
     ("enhanced_at", YVal.s now),
     ("enhanced_description", YVal.s (String.mk enhanced))]
  ⟨v2.frontmatter, ('#' :: ' ' :: title) ++ '\n' :: '\n' :: enhanced⟩

/-- The per-record loop of `EnhanceStage.run`: `collab` is the
collaborator oracle (`none` at an index models a per-record API failure,
caught inside `_enhance_description_simple`), `saveOk` tells whether the
record's try block (the save) completes; a failed save is counted as an
error, a collaborator failure is not. -/
def enhanceLoop (collab : Nat → Option Str) (saveOk : Nat → Bool) (now : String) :
    List Rec → Nat → List (Str × Rec) × Nat × Nat
  | [], _ => ([], 0, 0)
  | v :: rest, i =>
    let v2 := enhRecord (collab i) now v
    let out := enhanceLoop collab saveOk now rest (i + 1)
    if saveOk i then ((vidName v, v2) :: out.1, out.2.1 + 1, out.2.2)
    else (out.1, out.2.1, out.2.2 + 1)

/-- The result of `EnhanceStage.run` (the fields the claims are about). -/
structure EnhanceOut where
  saved : List (Str × Rec)
  enhanced_videos : Nat
  errors : Nat
  deriving DecidableEq

/-- The pure core of `EnhanceStage.run` on the retained (threshold-passing)
records. -/
def enhanceRun (videos : List Rec) (collab : Nat → Option Str)
    (saveOk : Nat → Bool) (now : String) : EnhanceOut :=
  if videos.isEmpty then ⟨[], 0, 0⟩
  else
    let out := enhanceLoop collab saveOk now videos 0
    ⟨out.1, out.2.1, out.2.2⟩

/-- A concrete assess-stage record for the filtering example. -/
def recS (id2 : String) (score : Int) : Rec :=
  ⟨[("video_id", YVal.s id2), ("happiness_score", YVal.i score)],
   "# T\n\nd".data⟩

/-- C5: the enhance stage loads exactly those loadable records whose score
(default 0 when the key is absent) passes `score >= threshold`; under the
default threshold 3 a record with no score is excluded; on scores
[5,4,3,1] with threshold 3 exactly the records with ids "a","b","c" are
loaded. -/
theorem enhance_stage_filtering (t : Int) (recs : List Rec)
    (hw : ∀ v ∈ recs, (scoreVal v).isSome = true) :
    (∀ v ∈ recs, (v ∈ loadVideosFromAssess t recs ↔ t ≤ (scoreVal v).getD 0)) ∧
    (∀ v ∈ recs, assocFind "happiness_score" v.frontmatter = none →
      v ∉ loadVideosFromAssess 3 recs) ∧
    (loadVideosFromAssess 3
        [recS "a" 5, recS "b" 4, recS "c" 3, recS "d" 1]).map vidName =
      ["a".data, "b".data, "c".data] := by
  refine ⟨?_, ?_, by decide⟩
  · intro v hv
    obtain ⟨n, hn⟩ := Option.isSome_iff_exists.mp (hw v hv)
    rw [loadVideosFromAssess, List.mem_filter, hn]
    simp [hv, hn]
  · intro v hv h0
    have hs : scoreVal v = some 0 := by simp [scoreVal, h0]
    rw [loadVideosFromAssess, List.mem_filter, hs]
    simp

/-- C5 witness: the filter characterization evaluated on one record. -/
theorem enhance_stage_filtering_witness :
    recS "a" 5 ∈ loadVideosFromAssess 3 [recS "a" 5] ↔
      3 ≤ (scoreVal (recS "a" 5)).getD 0 :=
  (enhance_stage_filtering 3 [recS "a" 5] (by decide)).1 (recS "a" 5)
    (by decide)

theorem enhanceLoop_spec (collab : Nat → Option Str) (saveOk : Nat → Bool)
    (now : String) :
    ∀ (l : List Rec) (i : Nat),
      enhanceLoop collab saveOk now l i =
        ((List.enumFrom i l).filterMap (fun p =>
          if saveOk p.1 then some (vidName p.2, enhRecord (collab p.1) now p.2)
          else none),
         ((List.enumFrom i l).filter (fun p => saveOk p.1)).length,
         ((List.enumFrom i l).filter (fun p => !saveOk p.1)).length) := by
  intro l
  induction l with
  | nil => intro i; simp [enhanceLoop]
  | cons v rest ih =>
    intro i
    simp only [enhanceLoop, List.enumFrom_cons, List.filterMap_cons, List.filter_cons,
      ih (i + 1)]
    by_cases h : saveOk i <;> simp [h]

/-- C6: the enhance stage never aborts on a per-record collaborator
failure — every retained record still gets exactly one write attempt, and
processed + errors covers all of them; the error count and the processed
count do not depend on the collaborator at all (a collaborator failure is
not an error); and a record whose collaborator call failed is written with
its original description as its text and as its `enhanced_description`. -/
theorem enhance_stage_fallback (videos : List Rec) (collab : Nat → Option Str)
    (saveOk : Nat → Bool) (now : String) (hne : videos ≠ []) :
    (enhanceRun videos collab saveOk now).saved =
      (List.enumFrom 0 videos).filterMap (fun p =>
        if saveOk p.1 then some (vidName p.2, enhRecord (collab p.1) now p.2)
        else none) ∧
    (enhanceRun videos collab saveOk now).enhanced_videos +
        (enhanceRun videos collab saveOk now).errors = videos.length ∧
    (∀ collab2 : Nat → Option Str,
      (enhanceRun videos collab2 saveOk now).errors =
          (enhanceRun videos collab saveOk now).errors ∧
      (enhanceRun videos collab2 saveOk now).enhanced_videos =
          (enhanceRun videos collab saveOk now).enhanced_videos) ∧
    (∀ (v : Rec) (i : Nat), collab i = none →
      assocFind "enhanced_description" (enhRecord (collab i) now v).frontmatter =
          some (YVal.s (String.mk (descOf v))) ∧
      (enhRecord (collab i) now v).content =
        ('#' :: ' ' :: yvalFString "" (assocFind "title" v.frontmatter)) ++
          '\n' :: '\n' :: descOf v) := by
  have hv : videos.isEmpty = false := by
    cases videos with
    | nil => exact absurd rfl hne
    | cons a t => rfl
  have hrun : ∀ c : Nat → Option Str, enhanceRun videos c saveOk now =
      ⟨(enhanceLoop c saveOk now videos 0).1,
       (enhanceLoop c saveOk now videos 0).2.1,
       (enhanceLoop c saveOk now videos 0).2.2⟩ := by
    intro c
    rw [enhanceRun, hv]
    rfl
  refine ⟨?_, ?_, ?_, ?_⟩
  · rw [hrun]
    show (enhanceLoop collab saveOk now videos 0).1 = _
    rw [enhanceLoop_spec]
  · rw [hrun]
    show (enhanceLoop collab saveOk now videos 0).2.1 +
        (enhanceLoop collab saveOk now videos 0).2.2 = videos.length
    rw [enhanceLoop_spec]
    show ((List.enumFrom 0 videos).filter (fun p => saveOk p.1)).length +
        ((List.enumFrom 0 videos).filter (fun p => !saveOk p.1)).length =
        videos.length
    rw [length_filter_not_add]
    simp
  · intro collab2
    rw [hrun collab, hrun collab2]
    constructor
    · show (enhanceLoop collab2 saveOk now videos 0).2.2 =
          (enhanceLoop collab saveOk now videos 0).2.2
      rw [enhanceLoop_spec, enhanceLoop_spec]
    · show (enhanceLoop collab2 saveOk now videos 0).2.1 =
          (enhanceLoop collab saveOk now videos 0).2.1
      rw [enhanceLoop_spec, enhanceLoop_spec]
  · intro v i hc
    rw [hc]
    constructor
    · show assocFind "enhanced_description"
          (dictUpdate v.frontmatter
            [("stage", YVal.s "enhanced"),
             ("enhanced_at", YVal.s now),
             ("enhanced_description", YVal.s (String.mk (descOf v)))]) =
          some (YVal.s (String.mk (descOf v)))
      rw [assocFind_dictUpdate]
      simp [assocFind]
    · rfl

/-- C6 witness: one record, a failing collaborator and a working save. -/
theorem enhance_stage_fallback_witness :
    (enhanceRun [recS "a" 5] (fun _ => none) (fun _ => true) "t").enhanced_videos +
        (enhanceRun [recS "a" 5] (fun _ => none) (fun _ => true) "t").errors = 1 :=
  (enhance_stage_fallback [recS "a" 5] (fun _ => none) (fun _ => true) "t"
    (by simp)).2.1

/- ===== The all-stages runner (src/happytube/cli/commands.py, run_all) ===== -/

/-- The per-stage counts `run_all` reads its gating decisions from
(`fetch_result.get("new_videos", 0)` and friends). -/
structure PipelineResults where
  new_videos : Nat
  assessed_videos : Nat
  enhanced_videos : Nat
  videos_reported : Nat
  deriving DecidableEq, Repr

/-- The sequence of stages `run_all` invokes, in order: fetch always runs;
when the fetch count is zero the command returns before assess; when the
assess count is zero it returns before enhance; otherwise enhance and then
report both run — there is no gate between enhance and report. -/
def runAllInvoked (r : PipelineResults) : List String :=
  if r.new_videos = 0 then ["fetch"]
  else if r.assessed_videos = 0 then ["fetch", "assess"]
  else ["fetch", "assess", "enhance", "report"]

/-- C8 (amended): zero fetched records skip assess, enhance and report;
zero assessed records skip enhance and report; but the enhance count does
NOT gate report: whenever fetch and assess both produced records, enhance
and report are both invoked, regardless of the enhance count. -/
theorem run_all_gating (r : PipelineResults) :
    (r.new_videos = 0 →
      "assess" ∉ runAllInvoked r ∧ "enhance" ∉ runAllInvoked r ∧
        "report" ∉ runAllInvoked r) ∧
    (r.assessed_videos = 0 →
      "enhance" ∉ runAllInvoked r ∧ "report" ∉ runAllInvoked r) ∧
    (r.new_videos ≠ 0 → r.assessed_videos ≠ 0 →
      "enhance" ∈ runAllInvoked r ∧ "report" ∈ runAllInvoked r) := by
  refine ⟨?_, ?_, ?_⟩
  · intro h
    rw [runAllInvoked, if_pos h]
    refine ⟨by decide, by decide, by decide⟩
  · intro h
    rw [runAllInvoked]
    by_cases h0 : r.new_videos = 0
    · rw [if_pos h0]
      exact ⟨by decide, by decide⟩
    · rw [if_neg h0, if_pos h]
      exact ⟨by decide, by decide⟩
  · intro h0 h1
    rw [runAllInvoked, if_neg h0, if_neg h1]
    exact ⟨by decide, by decide⟩

/-- C8 counterexample: one fetched and one assessed record but zero
enhanced records — report is still invoked, so "a later stage runs only
when the prior stage produced at least one usable output record" fails at
the enhance → report step. -/
theorem run_all_no_enhance_gate :
    (⟨1, 1, 0, 0⟩ : PipelineResults).enhanced_videos = 0 ∧
    "report" ∈ runAllInvoked ⟨1, 1, 0, 0⟩ := by
  exact ⟨rfl, by decide⟩

/-- C8 witness: both gates open on concrete non-zero counts. -/
theorem run_all_gating_witness :
    "enhance" ∈ runAllInvoked ⟨2, 3, 1, 1⟩ ∧
      "report" ∈ runAllInvoked ⟨2, 3, 1, 1⟩ :=
  (run_all_gating ⟨2, 3, 1, 1⟩).2.2 (by decide) (by decide)

/- ===== Report-stage historical export (report.py / video.py / commands.py) ===== -/

/-- The dates `Video.df_from_stage_dir` scans: `end_date = date.today()`,
`start_date = end_date - timedelta(days=days_back - 1)`, then every date
from start to today inclusive.  For `days_back = 0` Python's start would be
tomorrow and the window is empty, as here. -/
def dfWindowDates (today : Int) (days_back : Nat) : List Int :=
  (List.range days_back).map
    (fun (i : Nat) => today - ((days_back : Int) - 1) + (i : Int))

/-- `Video.df_from_stage_dir` for one stage: concatenates, in date order,
the parseable records of every scanned partition; `partitions` abstracts
the filesystem, giving the rows each dated partition contributes. -/
def df_from_stage_dir {α : Type} (partitions : Int → List α) (today : Int)
    (days_back : Nat) : List α :=
  ((dfWindowDates today days_back).map partitions).flatten

/-- `ReportStage._export_parquet` as called from `ReportStage.run`: `run`
invokes `self._export_parquet(target_date)` with no `days_back` argument,
so the default 7 is always used and the rows come from the window ending
at today; `target_date` only reaches the output file name
`f"{target_date}_last_{days_back}_days.parquet"`, modelled as the second
component (named date, lookback). -/
def reportRunExport {α : Type} (partitions : Int → List α)
    (today target_date : Int) : List α × (Int × Nat) :=
  (df_from_stage_dir partitions today 7, (target_date, 7))

/-- The CLI `report` command: accepts `--days-back` (displayed in the
console panel, the first component) but constructs `ReportStage()` and
calls `stage.run(target_date)` without ever forwarding the option. -/
def cliReport {α : Type} (partitions : Int → List α) (today target_date : Int)
    (days_back : Nat) : Nat × (List α × (Int × Nat)) :=
  (days_back, reportRunExport partitions today target_date)

/-- C10: the historical export always uses a lookback of exactly 7 days
over the 7 consecutive dates ending at today — independent of target_date
and of the CLI's --days-back option, which is never forwarded — while the
snapshot file is named after target_date; in particular (today 10,
target_date 0) produces a snapshot named for date 0 whose window does not
contain date 0. -/
theorem report_export_window {α : Type} (partitions : Int → List α)
    (today target_date : Int) :
    (dfWindowDates today 7).length = 7 ∧
    (∀ d : Int, d ∈ dfWindowDates today 7 ↔ today - 6 ≤ d ∧ d ≤ today) ∧
    (reportRunExport partitions today target_date).1 =
      df_from_stage_dir partitions today 7 ∧
    (∀ t2 : Int, (reportRunExport partitions today t2).1 =
      (reportRunExport partitions today target_date).1) ∧
    (reportRunExport partitions today target_date).2 = (target_date, 7) ∧
    (∀ days_back : Nat, (cliReport partitions today target_date days_back).2 =
      reportRunExport partitions today target_date) ∧
    (∀ x ∈ (reportRunExport partitions today target_date).1,
      ∃ d : Int, today - 6 ≤ d ∧ d ≤ today ∧ x ∈ partitions d) ∧
    ((0 : Int) ∉ dfWindowDates 10 7 ∧
      (reportRunExport partitions 10 0).2.1 = 0) := by
  have hmem : ∀ (td : Int) (d : Int),
      d ∈ dfWindowDates td 7 ↔ td - 6 ≤ d ∧ d ≤ td := by
    intro td d
    simp only [dfWindowDates, List.mem_map, List.mem_range]
    constructor
    · rintro ⟨i, hi, rfl⟩
      omega
    · rintro ⟨h1, h2⟩
      exact ⟨(d - (td - 6)).toNat, by omega, by omega⟩
  have hlen : (dfWindowDates today 7).length = 7 := by
    rw [dfWindowDates, List.length_map, List.length_range]
  refine ⟨hlen, hmem today, rfl, fun t2 => rfl, rfl,
    fun days_back => rfl, ?_, ?_⟩
  · intro x hx
    have hx2 : x ∈ ((dfWindowDates today 7).map partitions).flatten := hx
    rw [List.mem_flatten] at hx2
    obtain ⟨l, hl, hxl⟩ := hx2
    rw [List.mem_map] at hl
    obtain ⟨d, hd, rfl⟩ := hl
    have := (hmem today d).mp hd
    exact ⟨d, this.1, this.2, hxl⟩
  · constructor
    · intro h0
      have := (hmem 10 0).mp h0
      omega
    · rfl

/-- C10 witness: the export window evaluated at concrete dates. -/
theorem report_export_window_witness :
    ((0 : Int) ∉ dfWindowDates 10 7 ∧
      (reportRunExport (fun d => [d]) 10 0).2.1 = 0) :=
  (report_export_window (fun d => [d]) 10 0).2.2.2.2.2.2.2
